import Mathlib

/-!
# Verification of the generic state-space search engine

Shallow embedding of the strategy-agnostic search machinery of the
repository (`src/starter/src/search_engine.py`, `search_node.py`,
`state.py`, `search_constants.py`, `search_statistics.py`).

Modelling conventions:
* A problem state (`StateSpace` in `state.py`) is modelled by `SState`:
  its canonical hashable identity (`hashable_state()`) as a `Nat`, its
  accumulated path cost `gval` as an `Int`, and the list of identities of
  its ancestors (the `parent` chain, nearest ancestor first), which is
  exactly the information `has_path_cycle` consults.
* The cycle-check dictionary `path_to_gval` is modelled as an association
  list `Ledger` with `lookupL`/`setL` mirroring Python dict read/write.
* The frontier `OpenNodeCollection` is modelled as a list with insertion
  at the tail (exactly how the stack and queue variants insert) and
  extraction at a schedule-chosen index: extraction index `0` is the
  breadth-first queue, index `length - 1` the depth-first stack, and an
  arbitrary schedule covers any priority-queue extraction order, so the
  invariant theorems hold for all six strategies.
* Wall-clock time (`os.times()[0]`) is a caller-supplied `clock`
  indexed by the number of readings made so far (the `tick` counter).
* Each loop iteration emits events (`Ev`) recording which source lines
  executed (expansion, generation, pruning, insertion, ledger writes);
  the events carry no information back into the control flow.
* The two `return False` exits of `_searchOpen` (timeout at line 228,
  exhaustion at line 320) are tagged with distinct `Outcome`
  constructors marking which return statement executed; `search`
  collapses both to `none` exactly as the source collapses both to
  `False`.  A `KeyError` raised by the bare dictionary lookup in the
  staleness check is modelled by `Outcome.keyError`.
-/

/-- Identity returned by `StateSpace.hashable_state()`. -/
abbrev Ident := Nat

/-- A problem state: identity, accumulated path cost, and the identities
of the states on its generating path (`parent` chain, nearest first). -/
structure SState where
  id : Ident
  gval : Int
  path : List Ident
deriving DecidableEq, Repr

/-- `StateSpace.has_path_cycle` (state.py lines 73-81): walk the parent
chain and report whether any ancestor has the same hashable state. -/
def hasPathCycle (s : SState) : Bool :=
  s.path.contains s.id

/-- `SearchNode` (search_node.py lines 27-38): wraps a state with its
heuristic value, a snapshot of the state's gval, and a creation index. -/
structure SNode where
  state : SState
  hval : Int
  gval : Int
  index : Nat
deriving DecidableEq, Repr

/-- `SearchNode.__init__`: `self.gval = state.gval`, `self.index = SearchNode.n`. -/
def mkNode (s : SState) (h : Int) (idx : Nat) : SNode :=
  { state := s, hval := h, gval := s.gval, index := idx }

/-- The domain collaborators: successor enumeration, goal predicate and
heuristic function supplied to `init_search`. -/
structure Problem where
  succs : SState → List SState
  isGoal : SState → Bool
  heur : SState → Int

/-- `self.path_to_gval`: mapping from state identity to recorded cost. -/
abbrev Ledger := List (Ident × Int)

/-- Python dict read `d[k]` / `k in d.keys()`, as an optional lookup. -/
def lookupL : Ledger → Ident → Option Int
  | [], _ => none
  | (k, v) :: rest, key => if k = key then some v else lookupL rest key

/-- Python dict write `d[k] = v`: overwrite the entry or append a new one. -/
def setL : Ledger → Ident → Int → Ledger
  | [], key, val => [(key, val)]
  | (k, v) :: rest, key, val =>
      if k = key then (k, val) :: rest else (k, v) :: setL rest key val

/-- Cycle-check levels (search_constants.py lines 37-39). -/
def ccNONE : Nat := 0

def ccPATH : Nat := 1

def ccFULL : Nat := 2

/-- `SearchEngine.is_prunable` (search_engine.py lines 322-336). -/
def is_prunable (cc : Nat) (ledger : Ledger) (succ : SState) : Bool :=
  (decide (cc = ccFULL) &&
    (match lookupL ledger succ.id with
     | some v => decide (succ.gval > v)
     | none => false))
  || (decide (cc = ccPATH) && hasPathCycle succ)

/-- The cost-bound test of `_searchOpen` lines 296-298: a component of
the 3-tuple `(g, h, g+h)` exceeds its bound. -/
def violatesBound (cb : Int × Int × Int) (g h : Int) : Bool :=
  decide (g > cb.1) || decide (h > cb.2.1) || decide (g + h > cb.2.2)

/-- The guard of lines 292-300: `costbound is not None and (...)`. -/
def costViolates (cb : Option (Int × Int × Int)) (g h : Int) : Bool :=
  match cb with
  | some b => violatesBound b g h
  | none => false

/-- Events recording which source statements executed during a run. -/
inductive Ev where
  /-- `node.state.successors()` was called for this identity/cost (line 251). -/
  | expand (id : Ident) (g : Int)
  /-- a successor state was created by `successors()` (line 251). -/
  | generate (id : Ident) (g : Int)
  /-- successor rejected by `is_prunable`, `n_cc_pruned` incremented (line 285). -/
  | ccPrune (id : Ident) (g : Int)
  /-- successor rejected by the cost bound, `n_cost_pruned` incremented (line 301). -/
  | costPrune (id : Ident) (g : Int)
  /-- a `SearchNode` for the successor was inserted into OPEN (line 307). -/
  | insert (id : Ident) (g : Int)
  /-- `path_to_gval[id] = new` executed (line 317); `old` is the entry
  the dictionary held for `id` just before the write, if any. -/
  | ledgerWrite (id : Ident) (old : Option Int) (new : Int)
deriving DecidableEq, Repr

/-- Mutable state of one `SearchEngine` run: the OPEN collection, the
cycle-check dictionary, the pruning counters (`n_cc_pruned`,
`n_cost_pruned`), the class counters `SearchNode.n` and `StateSpace.n`,
and the number of clock readings made so far. -/
structure ES where
  openNodes : List SNode
  ledger : Ledger
  nCcPruned : Nat
  nCostPruned : Nat
  nodeCount : Nat
  stateCount : Nat
  tick : Nat
deriving Repr

/-- Processing of one successor inside the expansion loop
(search_engine.py lines 261-317): cycle-check pruning, cost-bound
pruning, insertion into OPEN, and the cycle-ledger write. -/
def processSucc (P : Problem) (cc : Nat) (cb : Option (Int × Int × Int))
    (es : ES) (succ : SState) : ES × List Ev :=
  if is_prunable cc es.ledger succ then
    ({ es with nCcPruned := es.nCcPruned + 1 }, [Ev.ccPrune succ.id succ.gval])
  else
    let h := P.heur succ
    if costViolates cb succ.gval h then
      ({ es with nCostPruned := es.nCostPruned + 1 },
       [Ev.costPrune succ.id succ.gval])
    else
      let node := mkNode succ h es.nodeCount
      let es1 := { es with openNodes := es.openNodes ++ [node],
                           nodeCount := es.nodeCount + 1 }
      if cc = ccFULL then
        ({ es1 with ledger := setL es1.ledger succ.id succ.gval },
         [Ev.insert succ.id succ.gval,
          Ev.ledgerWrite succ.id (lookupL es1.ledger succ.id) succ.gval])
      else
        (es1, [Ev.insert succ.id succ.gval])

/-- The `for succ in successors` loop of `_searchOpen` (lines 261-317). -/
def processSuccs (P : Problem) (cc : Nat) (cb : Option (Int × Int × Int)) :
    ES → List SState → ES × List Ev
  | es, [] => (es, [])
  | es, s :: rest =>
      let r1 := processSucc P cc cb es s
      let r2 := processSuccs P cc cb r1.1 rest
      (r2.1, r1.2 ++ r2.2)

/-- Extraction from the OPEN collection: `none` when empty, otherwise
the element at the schedule-chosen index together with the rest.  Index
`0` is the breadth-first queue's `popleft`, index `length - 1` the
depth-first stack's `pop`; heap extraction is some index as well. -/
def extractAt (l : List SNode) (i : Nat) : Option (SNode × List SNode) :=
  match l.get? (i % l.length) with
  | none => none
  | some n => some (n, l.eraseIdx (i % l.length))

/-- How `_searchOpen` terminated. `timeout` marks the `return False` at
line 228, `exhausted` the `return False` at line 320; `keyError` marks a
`KeyError` from the staleness lookup `self.path_to_gval[...]` at line
247; `fuelOut` means the while loop ran longer than the given fuel. -/
inductive Outcome where
  | goal (n : SNode)
  | timeout
  | exhausted
  | keyError
  | fuelOut
deriving DecidableEq, Repr

/-- Result of one iteration of the while loop. -/
inductive StepRes where
  | stop (o : Outcome) (es : ES)
  | cont (es : ES) (tr : List Ev)

/-- Python truthiness of `self.search_stop_time` / `timebound`:
`None` and `0` are falsy. -/
def truthy : Option Int → Bool
  | none => false
  | some t => decide (t ≠ 0)

/-- `successors()` call and the successor loop (lines 251-317): create
the successor states (each bumping `StateSpace.n`) and process each. -/
def expandNode (P : Problem) (cc : Nat) (cb : Option (Int × Int × Int))
    (es : ES) (node : SNode) : StepRes :=
  let succs := P.succs node.state
  let es3 := { es with stateCount := es.stateCount + succs.length }
  let r := processSuccs P cc cb es3 succs
  StepRes.cont r.1
    (Ev.expand node.state.id node.gval ::
      (succs.map (fun s => Ev.generate s.id s.gval) ++ r.2))

/-- Staleness test (lines 245-249) followed by expansion: under full
cycle checking the recorded cost for the extracted node's identity is
read with a bare dictionary access (a `KeyError` if absent), and the
node is skipped when that cost is strictly lower than its own. -/
def stepExpand (P : Problem) (cc : Nat) (cb : Option (Int × Int × Int))
    (es : ES) (node : SNode) : StepRes :=
  if cc = ccFULL then
    match lookupL es.ledger node.state.id with
    | none => StepRes.stop Outcome.keyError es
    | some v =>
      if v < node.gval then StepRes.cont es []
      else expandNode P cc cb es node
  else expandNode P cc cb es node

/-- One iteration of the while loop of `_searchOpen` (lines 208-317):
extract, goal test, deadline test, staleness test, expansion. -/
def stepOnce (P : Problem) (cc : Nat) (cb : Option (Int × Int × Int))
    (stopTime : Option Int) (clock : Nat → Int) (i : Nat) (es : ES) : StepRes :=
  match extractAt es.openNodes i with
  | none => StepRes.stop Outcome.exhausted es
  | some (node, rest) =>
    let es1 := { es with openNodes := rest }
    if P.isGoal node.state then StepRes.stop (Outcome.goal node) es1
    else
      if truthy stopTime then
        let now := clock es1.tick
        let es2 := { es1 with tick := es1.tick + 1 }
        if now > stopTime.getD 0 then StepRes.stop Outcome.timeout es2
        else stepExpand P cc cb es2 node
      else stepExpand P cc cb es1 node

/-- `SearchEngine._searchOpen` (lines 189-320), fuel-bounded: the while
loop, with extraction indices drawn from `sched` (indexed by remaining
fuel) and wall-clock readings drawn from `clock`. -/
def searchOpen (P : Problem) (cc : Nat) (cb : Option (Int × Int × Int))
    (stopTime : Option Int) (clock : Nat → Int) (sched : Nat → Nat) :
    Nat → ES → Outcome × ES × List Ev
  | 0, es => (Outcome.fuelOut, es, [])
  | fuel + 1, es =>
    match stepOnce P cc cb stopTime clock (sched fuel) es with
    | StepRes.stop o es' => (o, es', [])
    | StepRes.cont es' tr =>
      let r := searchOpen P cc cb stopTime clock sched fuel es'
      (r.1, r.2.1, tr ++ r.2.2)

/-- `SearchEngine.init_search` (lines 108-151): reset the statistics
counters (`SearchNode.n = 0`, `StateSpace.n = 1`), build the initial
node (bringing `SearchNode.n` to 1), seed the cycle-check dictionary
under full cycle checking, and seed OPEN. -/
def init_search (P : Problem) (cc : Nat) (s0 : SState) : ES :=
  { openNodes := [mkNode s0 (P.heur s0) 0],
    ledger := if cc = ccFULL then [(s0.id, s0.gval)] else [],
    nCcPruned := 0,
    nCostPruned := 0,
    nodeCount := 1,
    stateCount := 1,
    tick := 0 }

/-- `SearchStatistics` (search_statistics.py lines 7-24). -/
structure Stats where
  states_expanded : Nat
  states_generated : Nat
  states_pruned_cycles : Nat
  states_pruned_cost : Nat
  total_time : Int
deriving DecidableEq, Repr

/-- `SearchEngine.search` lines 167-173: read the start time, set the
stop time when the time bound is truthy, and run `_searchOpen`. -/
def searchRun (P : Problem) (cc : Nat) (sched : Nat → Nat) (clock : Nat → Int)
    (timebound : Option Int) (cb : Option (Int × Int × Int))
    (es : ES) (fuel : Nat) : Outcome × ES × List Ev :=
  let start := clock es.tick
  let es0 := { es with tick := es.tick + 1 }
  let stopTime := if truthy timebound then some (start + timebound.getD 0) else none
  searchOpen P cc cb stopTime clock sched fuel es0

/-- `SearchEngine.search` (lines 153-187): the caller-visible result.
A goal node yields `(goal state, stats)`; every other exit of
`_searchOpen` returned `False`, collapsed here to `none`. -/
def search (P : Problem) (cc : Nat) (sched : Nat → Nat) (clock : Nat → Int)
    (timebound : Option Int) (cb : Option (Int × Int × Int))
    (es : ES) (fuel : Nat) : Option SState × Stats :=
  let start := clock es.tick
  let r := searchRun P cc sched clock timebound cb es fuel
  let stats : Stats :=
    { states_expanded := r.2.1.nodeCount,
      states_generated := r.2.1.stateCount,
      states_pruned_cycles := r.2.1.nCcPruned,
      states_pruned_cost := r.2.1.nCostPruned,
      total_time := clock r.2.1.tick - start }
  match r.1 with
  | Outcome.goal n => (some n.state, stats)
  | _ => (none, stats)

/-- Search-strategy constants (search_constants.py lines 3-8). -/
def stDEPTH_FIRST : Nat := 0

/-- `_CYCLE_CHECK_MAP` (search_constants.py lines 46-51). -/
def cycleCheckMap : List (String × Nat) :=
  [("default", ccFULL), ("none", ccNONE), ("path", ccPATH), ("full", ccFULL)]

/-- String-keyed lookup for the constant maps. -/
def lookupS : List (String × Nat) → String → Option Nat
  | [], _ => none
  | (k, v) :: rest, key => if k = key then some v else lookupS rest key

/-- `SearchEngine.set_cycle_check` (search_engine.py lines 87-96), given
the engine's already-resolved numeric strategy. -/
def set_cycle_check (strategy : Nat) (cc : String) : Except String Nat :=
  match lookupS cycleCheckMap cc with
  | none => Except.error "Unknown cycle check level"
  | some v =>
    if cc = "default" ∧ strategy = stDEPTH_FIRST then Except.ok ccPATH
    else Except.ok v

/-- `lt_type` constants (search_constants.py lines 29-32). -/
def ltSUM_HG : Nat := 0

def ltH : Nat := 1

def ltG : Nat := 2

def ltC : Nat := 3

/-- `SearchNode.__lt__` (search_node.py lines 40-66), with the stored
`fval_function` of the nodes passed explicitly. -/
def nodeLt (ltType : Nat) (fvalFn : SNode → Int) (a b : SNode) : Bool :=
  if ltType = ltSUM_HG then
    if a.gval + a.hval = b.gval + b.hval then decide (a.gval > b.gval)
    else decide (a.gval + a.hval < b.gval + b.hval)
  else if ltType = ltG then decide (a.gval < b.gval)
  else if ltType = ltH then
    if a.hval = b.hval then decide (a.gval > b.gval)
    else decide (a.hval < b.hval)
  else if ltType = ltC then decide (fvalFn a < fvalFn b)
  else decide (a.gval < b.gval)

/-! ## Basic lemmas about the ledger (dictionary) operations -/

theorem lookupL_setL_self (l : Ledger) (k : Ident) (v : Int) :
    lookupL (setL l k v) k = some v := by
  induction l with
  | nil => simp [setL, lookupL]
  | cons p rest ih =>
    by_cases h : p.1 = k
    · simp [setL, h, lookupL]
    · simp [setL, h, lookupL, ih]

theorem lookupL_setL_ne (l : Ledger) (k k' : Ident) (v : Int) (h : k' ≠ k) :
    lookupL (setL l k v) k' = lookupL l k' := by
  have hk : k ≠ k' := Ne.symm h
  induction l with
  | nil => simp [setL, lookupL, hk]
  | cons p rest ih =>
    obtain ⟨a, b⟩ := p
    by_cases hp : a = k
    · subst hp
      simp [setL, lookupL, hk]
    · by_cases hp' : a = k'
      · subst hp'
        simp [setL, lookupL, hp]
      · simp [setL, lookupL, hp, hp', ih]

/-- Ledger evolution across a piece of the run: every existing entry is
still present afterwards, with a cost that did not increase. -/
def ledgerEvolve (l l' : Ledger) : Prop :=
  ∀ k v, lookupL l k = some v → ∃ v', lookupL l' k = some v' ∧ v' ≤ v

theorem ledgerEvolve_refl (l : Ledger) : ledgerEvolve l l :=
  fun k v h => ⟨v, h, le_refl v⟩

theorem ledgerEvolve_trans {l1 l2 l3 : Ledger}
    (h12 : ledgerEvolve l1 l2) (h23 : ledgerEvolve l2 l3) : ledgerEvolve l1 l3 := by
  intro k v h
  obtain ⟨v', hv', hle'⟩ := h12 k v h
  obtain ⟨v'', hv'', hle''⟩ := h23 k v' hv'
  exact ⟨v'', hv'', le_trans hle'' hle'⟩

theorem ledgerEvolve_setL (l : Ledger) (k : Ident) (v : Int)
    (h : ∀ w, lookupL l k = some w → v ≤ w) : ledgerEvolve l (setL l k v) := by
  intro k' v' hv'
  by_cases hk : k' = k
  · subst hk
    exact ⟨v, lookupL_setL_self l k' v, h v' hv'⟩
  · exact ⟨v', by rw [lookupL_setL_ne l k k' v hk]; exact hv', le_refl v'⟩

/-! ## The run invariant under full cycle checking -/

/-- A node on OPEN is well-formed: its cost snapshot agrees with its
state, and (under full cycle checking) the cycle-check dictionary has an
entry for its identity with recorded cost at most the node's cost. -/
def nodeOK (cc : Nat) (ledger : Ledger) (n : SNode) : Prop :=
  n.gval = n.state.gval ∧
    (cc = ccFULL → ∃ v, lookupL ledger n.state.id = some v ∧ v ≤ n.gval)

/-- Engine invariant: every node on OPEN is well-formed. -/
def invES (cc : Nat) (es : ES) : Prop :=
  ∀ n ∈ es.openNodes, nodeOK cc es.ledger n

theorem nodeOK_evolve {cc : Nat} {l l' : Ledger} {n : SNode}
    (he : ledgerEvolve l l') (h : nodeOK cc l n) : nodeOK cc l' n := by
  refine ⟨h.1, fun hcc => ?_⟩
  obtain ⟨v, hv, hle⟩ := h.2 hcc
  obtain ⟨v', hv', hle'⟩ := he n.state.id v hv
  exact ⟨v', hv', le_trans hle' hle⟩

/-! ## Characterisation of `is_prunable` -/

theorem is_prunable_false_full {ledger : Ledger} {succ : SState} {v : Int}
    (hl : lookupL ledger succ.id = some v)
    (h : is_prunable ccFULL ledger succ = false) : succ.gval ≤ v := by
  simp [is_prunable, hl, ccFULL, ccPATH] at h
  omega

/-! ## Event extraction from traces -/

/-- The `(identity, cost)` pairs of the expansion events of a trace. -/
def expandsOf (tr : List Ev) : List (Ident × Int) :=
  tr.filterMap fun e => match e with
    | Ev.expand id g => some (id, g)
    | _ => none

/-- The `(identity, cost)` pairs of the insertion events of a trace. -/
def insertsOf (tr : List Ev) : List (Ident × Int) :=
  tr.filterMap fun e => match e with
    | Ev.insert id g => some (id, g)
    | _ => none

/-- The `(identity, cost)` pairs of the generation events of a trace. -/
def generatesOf (tr : List Ev) : List (Ident × Int) :=
  tr.filterMap fun e => match e with
    | Ev.generate id g => some (id, g)
    | _ => none

theorem expandsOf_append (a b : List Ev) :
    expandsOf (a ++ b) = expandsOf a ++ expandsOf b :=
  List.filterMap_append a b _

theorem insertsOf_append (a b : List Ev) :
    insertsOf (a ++ b) = insertsOf a ++ insertsOf b :=
  List.filterMap_append a b _

theorem generatesOf_append (a b : List Ev) :
    generatesOf (a ++ b) = generatesOf a ++ generatesOf b :=
  List.filterMap_append a b _

/-! ## Properties of single-successor processing -/

theorem processSucc_writes (P : Problem) (cc : Nat) (cb : Option (Int × Int × Int))
    (es : ES) (succ : SState) :
    ∀ id v g, Ev.ledgerWrite id (some v) g ∈ (processSucc P cc cb es succ).2 → g ≤ v := by
  intro id v g hmem
  by_cases hpr : is_prunable cc es.ledger succ = true
  · simp [processSucc, hpr] at hmem
  · by_cases hcb : costViolates cb succ.gval (P.heur succ) = true
    · simp [processSucc, hpr, hcb] at hmem
    · by_cases hcc : cc = ccFULL
      · subst hcc
        simp [processSucc, hpr, hcb] at hmem
        obtain ⟨h1, h2, h3⟩ := hmem
        subst h3
        have hpr' : is_prunable ccFULL es.ledger succ = false := by simpa using hpr
        exact is_prunable_false_full h2.symm hpr'
      · simp [processSucc, hpr, hcb, hcc] at hmem

theorem processSucc_evolve (P : Problem) (cc : Nat) (cb : Option (Int × Int × Int))
    (es : ES) (succ : SState) :
    ledgerEvolve es.ledger (processSucc P cc cb es succ).1.ledger := by
  by_cases hpr : is_prunable cc es.ledger succ = true
  · simp only [processSucc, hpr, if_true]
    exact ledgerEvolve_refl _
  · by_cases hcb : costViolates cb succ.gval (P.heur succ) = true
    · simp [processSucc, hpr, hcb]
      exact ledgerEvolve_refl _
    · by_cases hcc : cc = ccFULL
      · subst hcc
        have hpr' : is_prunable ccFULL es.ledger succ = false := by simpa using hpr
        simp [processSucc, hpr, hcb]
        exact ledgerEvolve_setL _ _ _ (fun w hw => is_prunable_false_full hw hpr')
      · simp [processSucc, hpr, hcb, hcc]
        exact ledgerEvolve_refl _

theorem processSucc_inv (P : Problem) (cc : Nat) (cb : Option (Int × Int × Int))
    (es : ES) (succ : SState) (h : invES cc es) :
    invES cc (processSucc P cc cb es succ).1 := by
  by_cases hpr : is_prunable cc es.ledger succ = true
  · simpa [invES, processSucc, hpr] using h
  · by_cases hcb : costViolates cb succ.gval (P.heur succ) = true
    · simpa [invES, processSucc, hpr, hcb] using h
    · by_cases hcc : cc = ccFULL
      · subst hcc
        have hpr' : is_prunable ccFULL es.ledger succ = false := by simpa using hpr
        have hle : ∀ w, lookupL es.ledger succ.id = some w → succ.gval ≤ w :=
          fun w hw => is_prunable_false_full hw hpr'
        intro n hn
        simp [processSucc, hpr, hcb] at hn ⊢
        rcases hn with hn | hn
        · exact nodeOK_evolve (ledgerEvolve_setL _ _ _ hle) (h n hn)
        · subst hn
          exact ⟨rfl, fun _ => ⟨succ.gval, lookupL_setL_self _ _ _, le_refl _⟩⟩
      · intro n hn
        simp [processSucc, hpr, hcb, hcc] at hn ⊢
        rcases hn with hn | hn
        · exact h n hn
        · subst hn
          exact ⟨rfl, fun hc => absurd hc hcc⟩

theorem processSucc_no_expand (P : Problem) (cc : Nat) (cb : Option (Int × Int × Int))
    (es : ES) (succ : SState) :
    expandsOf (processSucc P cc cb es succ).2 = [] := by
  by_cases hpr : is_prunable cc es.ledger succ = true
  · simp [processSucc, hpr, expandsOf]
  · by_cases hcb : costViolates cb succ.gval (P.heur succ) = true
    · simp [processSucc, hpr, hcb, expandsOf]
    · by_cases hcc : cc = ccFULL
      · subst hcc
        simp [processSucc, hpr, hcb, expandsOf]
      · simp [processSucc, hpr, hcb, hcc, expandsOf]

theorem processSucc_counts (P : Problem) (cc : Nat) (cb : Option (Int × Int × Int))
    (es : ES) (succ : SState) :
    (processSucc P cc cb es succ).1.nodeCount
        = es.nodeCount + (insertsOf (processSucc P cc cb es succ).2).length ∧
    (processSucc P cc cb es succ).1.stateCount = es.stateCount ∧
    generatesOf (processSucc P cc cb es succ).2 = [] := by
  by_cases hpr : is_prunable cc es.ledger succ = true
  · simp [processSucc, hpr, insertsOf, generatesOf]
  · by_cases hcb : costViolates cb succ.gval (P.heur succ) = true
    · simp [processSucc, hpr, hcb, insertsOf, generatesOf]
    · by_cases hcc : cc = ccFULL
      · subst hcc
        simp [processSucc, hpr, hcb, insertsOf, generatesOf]
      · simp [processSucc, hpr, hcb, hcc, insertsOf, generatesOf]

/-! ## Properties of the successor loop -/

theorem processSuccs_writes (P : Problem) (cc : Nat) (cb : Option (Int × Int × Int)) :
    ∀ (ss : List SState) (es : ES) id v g,
      Ev.ledgerWrite id (some v) g ∈ (processSuccs P cc cb es ss).2 → g ≤ v := by
  intro ss
  induction ss with
  | nil => intro es id v g h; simp [processSuccs] at h
  | cons s rest ih =>
    intro es id v g h
    simp only [processSuccs, List.mem_append] at h
    rcases h with h | h
    · exact processSucc_writes P cc cb es s id v g h
    · exact ih _ id v g h

theorem processSuccs_evolve (P : Problem) (cc : Nat) (cb : Option (Int × Int × Int)) :
    ∀ (ss : List SState) (es : ES),
      ledgerEvolve es.ledger (processSuccs P cc cb es ss).1.ledger := by
  intro ss
  induction ss with
  | nil => intro es; exact ledgerEvolve_refl _
  | cons s rest ih =>
    intro es
    exact ledgerEvolve_trans (processSucc_evolve P cc cb es s) (ih _)

theorem processSuccs_inv (P : Problem) (cc : Nat) (cb : Option (Int × Int × Int)) :
    ∀ (ss : List SState) (es : ES), invES cc es →
      invES cc (processSuccs P cc cb es ss).1 := by
  intro ss
  induction ss with
  | nil => intro es h; exact h
  | cons s rest ih =>
    intro es h
    exact ih _ (processSucc_inv P cc cb es s h)

theorem processSuccs_no_expand (P : Problem) (cc : Nat) (cb : Option (Int × Int × Int)) :
    ∀ (ss : List SState) (es : ES),
      expandsOf (processSuccs P cc cb es ss).2 = [] := by
  intro ss
  induction ss with
  | nil => intro es; simp [processSuccs, expandsOf]
  | cons s rest ih =>
    intro es
    simp only [processSuccs]
    rw [expandsOf_append, processSucc_no_expand, ih]
    rfl

theorem processSuccs_counts (P : Problem) (cc : Nat) (cb : Option (Int × Int × Int)) :
    ∀ (ss : List SState) (es : ES),
      (processSuccs P cc cb es ss).1.nodeCount
          = es.nodeCount + (insertsOf (processSuccs P cc cb es ss).2).length ∧
      (processSuccs P cc cb es ss).1.stateCount = es.stateCount ∧
      generatesOf (processSuccs P cc cb es ss).2 = [] := by
  intro ss
  induction ss with
  | nil => intro es; simp [processSuccs, insertsOf, generatesOf]
  | cons s rest ih =>
    intro es
    obtain ⟨h1, h2, h3⟩ := processSucc_counts P cc cb es s
    obtain ⟨ih1, ih2, ih3⟩ := ih (processSucc P cc cb es s).1
    refine ⟨?_, ?_, ?_⟩
    · simp only [processSuccs, insertsOf_append, List.length_append]
      rw [ih1, h1]
      omega
    · simp only [processSuccs]
      rw [ih2, h2]
    · simp only [processSuccs]
      rw [generatesOf_append, h3, ih3]
      rfl

/-! ## Properties of one loop iteration -/

theorem extractAt_mem {l : List SNode} {i : Nat} {n : SNode} {rest : List SNode}
    (h : extractAt l i = some (n, rest)) : n ∈ l ∧ ∀ m ∈ rest, m ∈ l := by
  unfold extractAt at h
  cases hg : l.get? (i % l.length) with
  | none => rw [hg] at h; cases h
  | some a =>
    rw [hg] at h
    simp only [Option.some.injEq, Prod.mk.injEq] at h
    obtain ⟨rfl, rfl⟩ := h
    refine ⟨List.get?_mem hg, fun m hm => ?_⟩
    exact (List.eraseIdx_sublist l (i % l.length)).subset hm

theorem insertsOf_genmap (ss : List SState) :
    insertsOf (ss.map (fun s => Ev.generate s.id s.gval)) = [] := by
  induction ss with
  | nil => rfl
  | cons s rest ih => simpa [insertsOf] using ih

theorem generatesOf_genmap (ss : List SState) :
    generatesOf (ss.map (fun s => Ev.generate s.id s.gval))
      = ss.map (fun s => (s.id, s.gval)) := by
  induction ss with
  | nil => rfl
  | cons s rest ih => simpa [generatesOf] using ih

theorem expandsOf_genmap (ss : List SState) :
    expandsOf (ss.map (fun s => Ev.generate s.id s.gval)) = [] := by
  induction ss with
  | nil => rfl
  | cons s rest ih => simpa [expandsOf] using ih

theorem insertsOf_expandTrace (a : Ident) (b : Int) (ss : List SState) (tr : List Ev) :
    insertsOf (Ev.expand a b :: (ss.map (fun s => Ev.generate s.id s.gval) ++ tr))
      = insertsOf tr := by
  rw [show Ev.expand a b :: (ss.map (fun s => Ev.generate s.id s.gval) ++ tr)
      = [Ev.expand a b] ++ ss.map (fun s => Ev.generate s.id s.gval) ++ tr from rfl]
  rw [insertsOf_append, insertsOf_append, insertsOf_genmap]
  simp [insertsOf]

theorem generatesOf_expandTrace (a : Ident) (b : Int) (ss : List SState) (tr : List Ev) :
    generatesOf (Ev.expand a b :: (ss.map (fun s => Ev.generate s.id s.gval) ++ tr))
      = ss.map (fun s => (s.id, s.gval)) ++ generatesOf tr := by
  rw [show Ev.expand a b :: (ss.map (fun s => Ev.generate s.id s.gval) ++ tr)
      = [Ev.expand a b] ++ ss.map (fun s => Ev.generate s.id s.gval) ++ tr from rfl]
  rw [generatesOf_append, generatesOf_append, generatesOf_genmap]
  simp [generatesOf]

theorem expandsOf_expandTrace (a : Ident) (b : Int) (ss : List SState) (tr : List Ev) :
    expandsOf (Ev.expand a b :: (ss.map (fun s => Ev.generate s.id s.gval) ++ tr))
      = (a, b) :: expandsOf tr := by
  rw [show Ev.expand a b :: (ss.map (fun s => Ev.generate s.id s.gval) ++ tr)
      = [Ev.expand a b] ++ ss.map (fun s => Ev.generate s.id s.gval) ++ tr from rfl]
  rw [expandsOf_append, expandsOf_append, expandsOf_genmap]
  simp [expandsOf]

theorem expandNode_cont (P : Problem) (cc : Nat) (cb : Option (Int × Int × Int))
    (es : ES) (node : SNode) (hinv : invES cc es) :
    ∃ es2 tr2, expandNode P cc cb es node = StepRes.cont es2 tr2 ∧
      invES cc es2 ∧
      ledgerEvolve es.ledger es2.ledger ∧
      (∀ id v g, Ev.ledgerWrite id (some v) g ∈ tr2 → g ≤ v) ∧
      es2.nodeCount = es.nodeCount + (insertsOf tr2).length ∧
      es2.stateCount = es.stateCount + (generatesOf tr2).length ∧
      expandsOf tr2 = [(node.state.id, node.gval)] := by
  refine ⟨_, _, rfl, ?_, ?_, ?_, ?_, ?_, ?_⟩
  · exact processSuccs_inv P cc cb _ _ (fun n hn => hinv n hn)
  · exact processSuccs_evolve P cc cb (P.succs node.state)
      { es with stateCount := es.stateCount + (P.succs node.state).length }
  · intro id v g hmem
    simp only [List.mem_cons, List.mem_append, List.mem_map] at hmem
    rcases hmem with hmem | hmem | hmem
    · cases hmem
    · obtain ⟨s, _, hs⟩ := hmem
      cases hs
    · exact processSuccs_writes P cc cb _ _ id v g hmem
  · rw [insertsOf_expandTrace]
    exact (processSuccs_counts P cc cb (P.succs node.state)
      { es with stateCount := es.stateCount + (P.succs node.state).length }).1
  · rw [generatesOf_expandTrace]
    have h2 := (processSuccs_counts P cc cb (P.succs node.state)
      { es with stateCount := es.stateCount + (P.succs node.state).length }).2.1
    have h3 := (processSuccs_counts P cc cb (P.succs node.state)
      { es with stateCount := es.stateCount + (P.succs node.state).length }).2.2
    rw [h2, h3, List.append_nil, List.length_map]
  · rw [expandsOf_expandTrace, processSuccs_no_expand]

theorem stepExpand_stop (P : Problem) (cc : Nat) (cb : Option (Int × Int × Int))
    (es : ES) (node : SNode) (o : Outcome) (es' : ES)
    (h : stepExpand P cc cb es node = StepRes.stop o es') :
    o = Outcome.keyError ∧ cc = ccFULL ∧
    lookupL es.ledger node.state.id = none ∧ es' = es := by
  by_cases hcc : cc = ccFULL
  · subst hcc
    cases hlk : lookupL es.ledger node.state.id with
    | none =>
      have heq : stepExpand P ccFULL cb es node = StepRes.stop Outcome.keyError es := by
        simp [stepExpand, hlk]
      rw [heq] at h
      simp only [StepRes.stop.injEq] at h
      exact ⟨h.1.symm, rfl, hlk ▸ rfl, h.2.symm⟩
    | some v =>
      by_cases hst : v < node.gval
      · have heq : stepExpand P ccFULL cb es node = StepRes.cont es [] := by
          simp [stepExpand, hlk, hst]
        rw [heq] at h
        exact StepRes.noConfusion h
      · have heq : stepExpand P ccFULL cb es node = expandNode P ccFULL cb es node := by
          simp [stepExpand, hlk, hst]
        rw [heq] at h
        simp [expandNode] at h
  · have heq : stepExpand P cc cb es node = expandNode P cc cb es node := by
      simp [stepExpand, hcc]
    rw [heq] at h
    simp [expandNode] at h

theorem stepExpand_cont (P : Problem) (cc : Nat) (cb : Option (Int × Int × Int))
    (es es' : ES) (node : SNode) (tr : List Ev)
    (h : stepExpand P cc cb es node = StepRes.cont es' tr)
    (hinv : invES cc es) (hnode : nodeOK cc es.ledger node) :
    invES cc es' ∧
    ledgerEvolve es.ledger es'.ledger ∧
    (∀ id v g, Ev.ledgerWrite id (some v) g ∈ tr → g ≤ v) ∧
    es'.nodeCount = es.nodeCount + (insertsOf tr).length ∧
    es'.stateCount = es.stateCount + (generatesOf tr).length ∧
    (expandsOf tr = [] ∨ ∃ id g, expandsOf tr = [(id, g)] ∧
      (cc = ccFULL → lookupL es.ledger id = some g)) := by
  by_cases hcc : cc = ccFULL
  · subst hcc
    cases hlk : lookupL es.ledger node.state.id with
    | none =>
      have heq : stepExpand P ccFULL cb es node = StepRes.stop Outcome.keyError es := by
        simp [stepExpand, hlk]
      rw [heq] at h
      exact StepRes.noConfusion h
    | some v =>
      by_cases hst : v < node.gval
      · have heq : stepExpand P ccFULL cb es node = StepRes.cont es [] := by
          simp [stepExpand, hlk, hst]
        rw [heq] at h
        injection h with h1 h2
        subst h1
        refine ⟨hinv, ledgerEvolve_refl _, ?_, ?_, ?_, Or.inl ?_⟩
        · intro id v' g hmem
          rw [← h2] at hmem
          cases hmem
        · rw [← h2]; rfl
        · rw [← h2]; rfl
        · rw [← h2]; rfl
      · have heq : stepExpand P ccFULL cb es node = expandNode P ccFULL cb es node := by
          simp [stepExpand, hlk, hst]
        rw [heq] at h
        obtain ⟨es2, tr2, heq2, hi, hev, hw, hnc, hsc, hex⟩ :=
          expandNode_cont P ccFULL cb es node hinv
        rw [heq2] at h
        injection h with h1 h2
        subst h1
        subst h2
        refine ⟨hi, hev, hw, hnc, hsc,
          Or.inr ⟨node.state.id, node.gval, hex, fun _ => ?_⟩⟩
        obtain ⟨w, hw', hle⟩ := hnode.2 rfl
        rw [hlk] at hw'
        have hv : v = node.gval :=
          le_antisymm (Option.some.inj hw' ▸ hle) (not_lt.mp hst)
        rw [hlk, hv]
  · have heq : stepExpand P cc cb es node = expandNode P cc cb es node := by
      simp [stepExpand, hcc]
    rw [heq] at h
    obtain ⟨es2, tr2, heq2, hi, hev, hw, hnc, hsc, hex⟩ :=
      expandNode_cont P cc cb es node hinv
    rw [heq2] at h
    injection h with h1 h2
    subst h1
    subst h2
    exact ⟨hi, hev, hw, hnc, hsc,
      Or.inr ⟨node.state.id, node.gval, hex, fun hc => absurd hc hcc⟩⟩

theorem stepOnce_cont (P : Problem) (cc : Nat) (cb : Option (Int × Int × Int))
    (stopTime : Option Int) (clock : Nat → Int) (i : Nat) (es es' : ES) (tr : List Ev)
    (h : stepOnce P cc cb stopTime clock i es = StepRes.cont es' tr)
    (hinv : invES cc es) :
    invES cc es' ∧
    ledgerEvolve es.ledger es'.ledger ∧
    (∀ id v g, Ev.ledgerWrite id (some v) g ∈ tr → g ≤ v) ∧
    es'.nodeCount = es.nodeCount + (insertsOf tr).length ∧
    es'.stateCount = es.stateCount + (generatesOf tr).length ∧
    (expandsOf tr = [] ∨ ∃ id g, expandsOf tr = [(id, g)] ∧
      (cc = ccFULL → lookupL es.ledger id = some g)) := by
  unfold stepOnce at h
  cases hex : extractAt es.openNodes i with
  | none =>
    rw [hex] at h
    exact StepRes.noConfusion h
  | some pr =>
    obtain ⟨node, rest⟩ := pr
    rw [hex] at h
    obtain ⟨hmemN, hmemR⟩ := extractAt_mem hex
    have hinv1 : invES cc { es with openNodes := rest } :=
      fun n hn => hinv n (hmemR n hn)
    have hnode : nodeOK cc es.ledger node := hinv node hmemN
    by_cases hg : P.isGoal node.state = true
    · simp only [hg, if_true] at h
      exact StepRes.noConfusion h
    · simp only [hg, if_false, Bool.false_eq_true] at h
      by_cases ht : truthy stopTime = true
      · simp only [ht, if_true] at h
        by_cases hc : clock es.tick > stopTime.getD 0
        · simp only [hc, if_true] at h
          exact StepRes.noConfusion h
        · simp only [hc, if_false] at h
          exact stepExpand_cont P cc cb
            { es with openNodes := rest, tick := es.tick + 1 } es' node tr h
            (fun n hn => hinv1 n hn) hnode
      · simp only [ht, if_false, Bool.false_eq_true] at h
        exact stepExpand_cont P cc cb { es with openNodes := rest } es' node tr h
          hinv1 hnode

theorem stepOnce_stop (P : Problem) (cc : Nat) (cb : Option (Int × Int × Int))
    (stopTime : Option Int) (clock : Nat → Int) (i : Nat) (es es' : ES) (o : Outcome)
    (h : stepOnce P cc cb stopTime clock i es = StepRes.stop o es')
    (hinv : invES cc es) :
    invES cc es' ∧
    es'.ledger = es.ledger ∧
    es'.nodeCount = es.nodeCount ∧
    es'.stateCount = es.stateCount ∧
    o ≠ Outcome.keyError := by
  unfold stepOnce at h
  cases hex : extractAt es.openNodes i with
  | none =>
    rw [hex] at h
    simp only [StepRes.stop.injEq] at h
    obtain ⟨rfl, rfl⟩ := h.symm.imp Eq.symm Eq.symm
    exact ⟨hinv, rfl, rfl, rfl, by simp⟩
  | some pr =>
    obtain ⟨node, rest⟩ := pr
    rw [hex] at h
    obtain ⟨hmemN, hmemR⟩ := extractAt_mem hex
    have hinv1 : invES cc { es with openNodes := rest } :=
      fun n hn => hinv n (hmemR n hn)
    have hnode : nodeOK cc es.ledger node := hinv node hmemN
    by_cases hg : P.isGoal node.state = true
    · simp only [hg, if_true, StepRes.stop.injEq] at h
      obtain ⟨ho, hes⟩ := h
      subst ho
      subst hes
      exact ⟨hinv1, rfl, rfl, rfl, by simp⟩
    · simp only [hg, if_false, Bool.false_eq_true] at h
      by_cases ht : truthy stopTime = true
      · simp only [ht, if_true] at h
        by_cases hc : clock es.tick > stopTime.getD 0
        · simp only [hc, if_true, StepRes.stop.injEq] at h
          obtain ⟨ho, hes⟩ := h
          subst ho
          subst hes
          exact ⟨fun n hn => hinv1 n hn, rfl, rfl, rfl, by simp⟩
        · simp only [hc, if_false] at h
          obtain ⟨hok, hcc, hlk, _⟩ := stepExpand_stop P cc cb
            { es with openNodes := rest, tick := es.tick + 1 } node o es' h
          obtain ⟨w, hw, _⟩ := hnode.2 hcc
          rw [hlk] at hw
          cases hw
      · simp only [ht, if_false, Bool.false_eq_true] at h
        obtain ⟨hok, hcc, hlk, _⟩ := stepExpand_stop P cc cb _ node o es' h
        obtain ⟨w, hw, _⟩ := hnode.2 hcc
        rw [hlk] at hw
        cases hw

theorem stepOnce_stop_no_timeout (P : Problem) (cc : Nat) (cb : Option (Int × Int × Int))
    (stopTime : Option Int) (clock : Nat → Int) (i : Nat) (es es' : ES) (o : Outcome)
    (hst : truthy stopTime = false)
    (h : stepOnce P cc cb stopTime clock i es = StepRes.stop o es') :
    o ≠ Outcome.timeout := by
  unfold stepOnce at h
  cases hex : extractAt es.openNodes i with
  | none =>
    rw [hex] at h
    simp only [StepRes.stop.injEq] at h
    rw [← h.1]
    simp
  | some pr =>
    obtain ⟨node, rest⟩ := pr
    rw [hex] at h
    by_cases hg : P.isGoal node.state = true
    · simp only [hg, if_true, StepRes.stop.injEq] at h
      rw [← h.1]
      simp
    · simp only [hg, if_false, Bool.false_eq_true, hst] at h
      obtain ⟨hok, _, _, _⟩ := stepExpand_stop P cc cb _ node o es' h
      subst hok
      simp

/-! ## The main run-level induction -/

theorem searchOpen_succ (P : Problem) (cc : Nat) (cb : Option (Int × Int × Int))
    (stopTime : Option Int) (clock : Nat → Int) (sched : Nat → Nat)
    (n : Nat) (es : ES) :
    searchOpen P cc cb stopTime clock sched (n + 1) es
      = match stepOnce P cc cb stopTime clock (sched n) es with
        | StepRes.stop o es' => (o, es', [])
        | StepRes.cont es' tr =>
          ((searchOpen P cc cb stopTime clock sched n es').1,
           (searchOpen P cc cb stopTime clock sched n es').2.1,
           tr ++ (searchOpen P cc cb stopTime clock sched n es').2.2) := rfl

theorem searchOpen_main (P : Problem) (cc : Nat) (cb : Option (Int × Int × Int))
    (stopTime : Option Int) (clock : Nat → Int) (sched : Nat → Nat) :
    ∀ (fuel : Nat) (es : ES), invES cc es →
      invES cc (searchOpen P cc cb stopTime clock sched fuel es).2.1 ∧
      ledgerEvolve es.ledger (searchOpen P cc cb stopTime clock sched fuel es).2.1.ledger ∧
      (∀ id v g, Ev.ledgerWrite id (some v) g
          ∈ (searchOpen P cc cb stopTime clock sched fuel es).2.2 → g ≤ v) ∧
      (searchOpen P cc cb stopTime clock sched fuel es).1 ≠ Outcome.keyError ∧
      (searchOpen P cc cb stopTime clock sched fuel es).2.1.nodeCount
        = es.nodeCount
          + (insertsOf (searchOpen P cc cb stopTime clock sched fuel es).2.2).length ∧
      (searchOpen P cc cb stopTime clock sched fuel es).2.1.stateCount
        = es.stateCount
          + (generatesOf (searchOpen P cc cb stopTime clock sched fuel es).2.2).length ∧
      (∀ p ∈ expandsOf (searchOpen P cc cb stopTime clock sched fuel es).2.2,
        cc = ccFULL → ∀ v, lookupL es.ledger p.1 = some v → p.2 ≤ v) ∧
      (cc = ccFULL → List.Pairwise (fun p q : Ident × Int => p.1 = q.1 → q.2 ≤ p.2)
        (expandsOf (searchOpen P cc cb stopTime clock sched fuel es).2.2)) := by
  intro fuel
  induction fuel with
  | zero =>
    intro es hinv
    refine ⟨hinv, ledgerEvolve_refl _, ?_, ?_, ?_, ?_, ?_, ?_⟩
    · intro id v g hmem
      simp [searchOpen] at hmem
    · simp [searchOpen]
    · simp [searchOpen, insertsOf]
    · simp [searchOpen, generatesOf]
    · intro p hp
      simp [searchOpen, expandsOf] at hp
    · intro _
      simp [searchOpen, expandsOf]
  | succ n ih =>
    intro es hinv
    cases hs : stepOnce P cc cb stopTime clock (sched n) es with
    | stop o es' =>
      have hrw : searchOpen P cc cb stopTime clock sched (n + 1) es = (o, es', []) := by
        rw [searchOpen_succ, hs]
      obtain ⟨hi, hl, hnc, hsc, hko⟩ :=
        stepOnce_stop P cc cb stopTime clock (sched n) es es' o hs hinv
      rw [hrw]
      refine ⟨hi, ?_, ?_, hko, ?_, ?_, ?_, ?_⟩
      · rw [hl]
        exact ledgerEvolve_refl _
      · intro id v g hmem
        simp at hmem
      · simp [insertsOf, hnc]
      · simp [generatesOf, hsc]
      · intro p hp
        simp [expandsOf] at hp
      · intro _
        simp [expandsOf]
    | cont es' tr =>
      have hrw : searchOpen P cc cb stopTime clock sched (n + 1) es
          = ((searchOpen P cc cb stopTime clock sched n es').1,
             (searchOpen P cc cb stopTime clock sched n es').2.1,
             tr ++ (searchOpen P cc cb stopTime clock sched n es').2.2) := by
        rw [searchOpen_succ, hs]
      obtain ⟨hi1, hev1, hw1, hnc1, hsc1, hexp1⟩ :=
        stepOnce_cont P cc cb stopTime clock (sched n) es es' tr hs hinv
      obtain ⟨hi2, hev2, hw2, hko2, hnc2, hsc2, hcost2, hpw2⟩ := ih es' hi1
      rw [hrw]
      refine ⟨hi2, ledgerEvolve_trans hev1 hev2, ?_, hko2, ?_, ?_, ?_, ?_⟩
      · intro id v g hmem
        rw [show ((searchOpen P cc cb stopTime clock sched n es').1,
             (searchOpen P cc cb stopTime clock sched n es').2.1,
             tr ++ (searchOpen P cc cb stopTime clock sched n es').2.2).2.2
             = tr ++ (searchOpen P cc cb stopTime clock sched n es').2.2 from rfl,
          List.mem_append] at hmem
        rcases hmem with hmem | hmem
        · exact hw1 id v g hmem
        · exact hw2 id v g hmem
      · show (searchOpen P cc cb stopTime clock sched n es').2.1.nodeCount
          = es.nodeCount + (insertsOf (tr ++ (searchOpen P cc cb stopTime clock sched n es').2.2)).length
        rw [insertsOf_append, List.length_append, hnc2, hnc1]
        omega
      · show (searchOpen P cc cb stopTime clock sched n es').2.1.stateCount
          = es.stateCount + (generatesOf (tr ++ (searchOpen P cc cb stopTime clock sched n es').2.2)).length
        rw [generatesOf_append, List.length_append, hsc2, hsc1]
        omega
      · intro p hp hcc v hv
        rw [show (expandsOf ((searchOpen P cc cb stopTime clock sched n es').1,
             (searchOpen P cc cb stopTime clock sched n es').2.1,
             tr ++ (searchOpen P cc cb stopTime clock sched n es').2.2).2.2)
             = expandsOf (tr ++ (searchOpen P cc cb stopTime clock sched n es').2.2) from rfl,
          expandsOf_append, List.mem_append] at hp
        rcases hp with hp | hp
        · rcases hexp1 with he | ⟨id, g, he, hlkf⟩
          · rw [he] at hp
            cases hp
          · rw [he] at hp
            simp only [List.mem_singleton] at hp
            subst hp
            have hg : g = v := by
              have := hlkf hcc
              rw [this] at hv
              exact Option.some.inj hv
            exact le_of_eq hg
        · obtain ⟨v', hv', hle'⟩ := hev1 p.1 v hv
          exact le_trans (hcost2 p hp hcc v' hv') hle'
      · intro hcc
        show List.Pairwise _ (expandsOf (tr ++ (searchOpen P cc cb stopTime clock sched n es').2.2))
        rw [expandsOf_append, List.pairwise_append]
        refine ⟨?_, hpw2 hcc, ?_⟩
        · rcases hexp1 with he | ⟨id, g, he, _⟩ <;> rw [he] <;> simp
        · intro x hx y hy
          rcases hexp1 with he | ⟨id, g, he, hlkf⟩
          · rw [he] at hx
            cases hx
          · rw [he] at hx
            simp only [List.mem_singleton] at hx
            subst hx
            intro hxy
            obtain ⟨v', hv', hle'⟩ := hev1 id g (hlkf hcc)
            have hvy : lookupL es'.ledger y.1 = some v' := by
              rw [show y.1 = id from hxy.symm]
              exact hv'
            exact le_trans (hcost2 y hy hcc v' hvy) hle'

theorem searchOpen_no_timeout (P : Problem) (cc : Nat) (cb : Option (Int × Int × Int))
    (clock : Nat → Int) (sched : Nat → Nat) :
    ∀ (fuel : Nat) (es : ES),
      (searchOpen P cc cb none clock sched fuel es).1 ≠ Outcome.timeout := by
  intro fuel
  induction fuel with
  | zero =>
    intro es
    simp [searchOpen]
  | succ n ih =>
    intro es
    cases hs : stepOnce P cc cb none clock (sched n) es with
    | stop o es' =>
      rw [searchOpen_succ, hs]
      exact stepOnce_stop_no_timeout P cc cb none clock (sched n) es es' o rfl hs
    | cont es' tr =>
      rw [searchOpen_succ, hs]
      exact ih es'

theorem init_search_inv (P : Problem) (cc : Nat) (s0 : SState) :
    invES cc (init_search P cc s0) := by
  intro n hn
  simp only [init_search, List.mem_singleton] at hn
  subst hn
  refine ⟨rfl, fun hcc => ⟨s0.gval, ?_, le_refl _⟩⟩
  simp [init_search, hcc, lookupL, mkNode]

theorem search_stats (P : Problem) (cc : Nat) (sched : Nat → Nat) (clock : Nat → Int)
    (tb : Option Int) (cb : Option (Int × Int × Int)) (es : ES) (fuel : Nat) :
    (search P cc sched clock tb cb es fuel).2
      = { states_expanded := (searchRun P cc sched clock tb cb es fuel).2.1.nodeCount,
          states_generated := (searchRun P cc sched clock tb cb es fuel).2.1.stateCount,
          states_pruned_cycles := (searchRun P cc sched clock tb cb es fuel).2.1.nCcPruned,
          states_pruned_cost := (searchRun P cc sched clock tb cb es fuel).2.1.nCostPruned,
          total_time := clock (searchRun P cc sched clock tb cb es fuel).2.1.tick
            - clock es.tick } := by
  simp only [search]
  cases hr : (searchRun P cc sched clock tb cb es fuel).1 <;> rfl

theorem searchRun_counts (P : Problem) (cc : Nat) (sched : Nat → Nat) (clock : Nat → Int)
    (tb : Option Int) (cb : Option (Int × Int × Int)) (es : ES) (fuel : Nat)
    (hinv : invES cc es) :
    (searchRun P cc sched clock tb cb es fuel).2.1.nodeCount
      = es.nodeCount + (insertsOf (searchRun P cc sched clock tb cb es fuel).2.2).length ∧
    (searchRun P cc sched clock tb cb es fuel).2.1.stateCount
      = es.stateCount + (generatesOf (searchRun P cc sched clock tb cb es fuel).2.2).length := by
  have hm := searchOpen_main P cc cb
    (if truthy tb then some (clock es.tick + tb.getD 0) else none) clock sched fuel
    { es with tick := es.tick + 1 } (fun n hn => hinv n hn)
  exact ⟨hm.2.2.2.2.1, hm.2.2.2.2.2.1⟩

/-! ## Demonstration problems and runs -/

/-- Initial state of the demonstration runs: identity 0, path cost 0. -/
def demoS0 : SState := { id := 0, gval := 0, path := [] }

/-- Demonstration problem: the initial configuration has two successor
states with the same identity 1 and the same path cost 1 (two different
actions reaching the same configuration, as happens in any domain with
transpositions); identity 1 has no successors; nothing is a goal. -/
def demoP : Problem :=
  { succs := fun s => if s.id = 0
      then [{ id := 1, gval := 1, path := [0] }, { id := 1, gval := 1, path := [0] }]
      else [],
    isGoal := fun _ => false,
    heur := fun _ => 0 }

/-- A problem with no successors and no goal: the search exhausts OPEN. -/
def c4P : Problem := { succs := fun _ => [], isGoal := fun _ => false, heur := fun _ => 0 }

/-- A clock whose second reading (the in-loop deadline check) is late. -/
def clockA : Nat → Int := fun t => if t = 1 then 2 else 0

/-- A problem whose every state is a goal: the search succeeds at once. -/
def goalP : Problem := { succs := fun _ => [], isGoal := fun _ => true, heur := fun _ => 0 }

/-! ## The claims -/

/-- The prunability test exactly as the specification words it (C1):
reject if (full-cycle-checking and a ledger entry exists with cost `≤`
this successor's cost) or (path-cycle-checking and the successor's
identity equals an ancestor's).  Written only to be compared against the
source-derived `is_prunable`. -/
def prunableClaimed (cc : Nat) (ledger : Ledger) (succ : SState) : Bool :=
  (decide (cc = ccFULL) &&
    (match lookupL ledger succ.id with
     | some v => decide (v ≤ succ.gval)
     | none => false))
  || (decide (cc = ccPATH) && hasPathCycle succ)

/-- C1 counterexample: a successor whose cost equals the recorded ledger
cost is NOT pruned by `is_prunable`, although the claim ("a ledger entry
exists with cost ≤ this successor's cost") says it must be. -/
theorem c1_counterexample :
    prunableClaimed ccFULL [(0, 5)] { id := 0, gval := 5, path := [] } = true ∧
    is_prunable ccFULL [(0, 5)] { id := 0, gval := 5, path := [] } = false := by
  decide

/-- C1 (amended): the prunability test rejects a successor iff either
full-cycle-checking is active and a ledger entry exists for its identity
with recorded cost STRICTLY LESS than the successor's path cost, or
path-cycle-checking is active and the successor's identity equals some
ancestor's identity along its own generating path. -/
theorem c1_prunable_iff (cc : Nat) (ledger : Ledger) (succ : SState) :
    is_prunable cc ledger succ = true ↔
      ((cc = ccFULL ∧ ∃ v, lookupL ledger succ.id = some v ∧ v < succ.gval) ∨
       (cc = ccPATH ∧ hasPathCycle succ = true)) := by
  unfold is_prunable
  cases hlk : lookupL ledger succ.id with
  | none => simp [hlk]
  | some v => simp [hlk]

/-- C2 counterexample: under full cycle checking, a breadth-first run on
`demoP` expands identity 1 twice at the same cost 1 — the engine DOES
expand the same state identity twice at the same cost, contradicting the
claim ("never expands the same identity twice at the same or a higher
path cost"). -/
theorem c2_counterexample :
    ¬ List.Pairwise (fun p q : Ident × Int => p.1 = q.1 → q.2 < p.2)
        (expandsOf (searchOpen demoP ccFULL none none (fun _ => 0) (fun _ => 0) 10
          (init_search demoP ccFULL demoS0)).2.2) := by
  decide

/-- C2 (amended): under full cycle checking, for every run of the search
loop started from `init_search` — any strategy (extraction schedule),
deadline, cost bound and fuel — the engine never expands the same state
identity twice at a STRICTLY HIGHER path cost (re-expansion at an equal
cost can happen), and every overwrite of a Cycle Ledger entry records a
cost less than or equal to the previous one, so each identity's recorded
cost only decreases or stays equal across the run. -/
theorem c2_no_costlier_reexpansion (P : Problem) (s0 : SState)
    (cb : Option (Int × Int × Int)) (stopTime : Option Int)
    (clock : Nat → Int) (sched : Nat → Nat) (fuel : Nat) :
    List.Pairwise (fun p q : Ident × Int => p.1 = q.1 → q.2 ≤ p.2)
      (expandsOf (searchOpen P ccFULL cb stopTime clock sched fuel
        (init_search P ccFULL s0)).2.2) ∧
    (∀ id v g, Ev.ledgerWrite id (some v) g
        ∈ (searchOpen P ccFULL cb stopTime clock sched fuel (init_search P ccFULL s0)).2.2
      → g ≤ v) := by
  have hm := searchOpen_main P ccFULL cb stopTime clock sched fuel (init_search P ccFULL s0)
    (init_search_inv P ccFULL s0)
  exact ⟨hm.2.2.2.2.2.2.2 rfl, hm.2.2.1⟩

/-- C3 counterexample: in the demonstration run the existing ledger
entry for identity 1 (cost 1) is overwritten with the EQUAL cost 1,
contradicting the claim that overwrites are always strictly lower. -/
theorem c3_counterexample :
    Ev.ledgerWrite 1 (some 1) 1
      ∈ (searchOpen demoP ccFULL none none (fun _ => 0) (fun _ => 0) 10
          (init_search demoP ccFULL demoS0)).2.2 ∧
    ¬ ((1 : Int) < 1) := by
  decide

/-- C3 (amended): during any run started from `init_search`, whenever an
existing Cycle Ledger entry (recorded cost `v`) is overwritten with a
new cost `g` at successor insertion time, `g ≤ v`: the stored cost never
increases, but an overwrite with an EQUAL cost is possible. -/
theorem c3_ledger_writes_nonincreasing (P : Problem) (cc : Nat) (s0 : SState)
    (cb : Option (Int × Int × Int)) (stopTime : Option Int)
    (clock : Nat → Int) (sched : Nat → Nat) (fuel : Nat)
    (id : Ident) (v g : Int)
    (hmem : Ev.ledgerWrite id (some v) g
      ∈ (searchOpen P cc cb stopTime clock sched fuel (init_search P cc s0)).2.2) :
    g ≤ v := by
  have hm := searchOpen_main P cc cb stopTime clock sched fuel (init_search P cc s0)
    (init_search_inv P cc s0)
  exact hm.2.2.1 id v g hmem

/-- Witness for C3's theorem: the demonstration run contains the ledger
overwrite of `some 1` by `1`, and the theorem yields `1 ≤ 1` there. -/
theorem c3_witness :
    Ev.ledgerWrite 1 (some 1) 1
      ∈ (searchOpen demoP ccFULL none none (fun _ => 0) (fun _ => 0) 10
          (init_search demoP ccFULL demoS0)).2.2 ∧
    (1 : Int) ≤ 1 :=
  ⟨by decide, c3_ledger_writes_nonincreasing demoP ccFULL demoS0 none none
    (fun _ => 0) (fun _ => 0) 10 1 1 1 (by decide)⟩

/-- C4 counterexample: a run that stops because the deadline passed
(`Outcome.timeout`, the `return False` at line 228) and a run that stops
because OPEN was exhausted (`Outcome.exhausted`, the `return False` at
line 320) give the caller LITERALLY EQUAL results from `search` — the
same `False` and the same statistics — so the two termination reasons
are not distinguishable by the caller, contradicting the claim. -/
theorem c4_counterexample :
    (searchRun c4P ccFULL (fun _ => 0) clockA (some 1) none
        (init_search c4P ccFULL demoS0) 5).1 = Outcome.timeout ∧
    (searchRun c4P ccFULL (fun _ => 0) (fun _ => 0) none none
        (init_search c4P ccFULL demoS0) 5).1 = Outcome.exhausted ∧
    search c4P ccFULL (fun _ => 0) clockA (some 1) none
        (init_search c4P ccFULL demoS0) 5
      = search c4P ccFULL (fun _ => 0) (fun _ => 0) none none
        (init_search c4P ccFULL demoS0) 5 := by
  decide

/-- C4 (amended): both timeout and frontier exhaustion are normal,
non-error terminations that return `False` (here `none`) together with a
Statistics record; the caller-visible return value is the same in both
cases and does NOT let the caller distinguish "ran out of time" from "no
solution exists" (only a console message printed on timeout differs). -/
theorem c4_timeout_exhaustion_normal (P : Problem) (cc : Nat) (sched : Nat → Nat)
    (clock : Nat → Int) (tb : Option Int) (cb : Option (Int × Int × Int))
    (es : ES) (fuel : Nat)
    (h : (searchRun P cc sched clock tb cb es fuel).1 = Outcome.timeout ∨
         (searchRun P cc sched clock tb cb es fuel).1 = Outcome.exhausted) :
    (search P cc sched clock tb cb es fuel).1 = none := by
  simp only [search]
  rcases h with h | h <;> rw [h]

/-- Witness for C4's theorem at the concrete timeout run. -/
theorem c4_witness :
    ((searchRun c4P ccFULL (fun _ => 0) clockA (some 1) none
        (init_search c4P ccFULL demoS0) 5).1 = Outcome.timeout ∨
     (searchRun c4P ccFULL (fun _ => 0) clockA (some 1) none
        (init_search c4P ccFULL demoS0) 5).1 = Outcome.exhausted) ∧
    (search c4P ccFULL (fun _ => 0) clockA (some 1) none
        (init_search c4P ccFULL demoS0) 5).1 = none :=
  ⟨Or.inl (by decide),
   c4_timeout_exhaustion_normal c4P ccFULL (fun _ => 0) clockA (some 1) none
     (init_search c4P ccFULL demoS0) 5 (Or.inl (by decide))⟩

/-- C5 counterexample: on a problem whose initial state is already a
goal, NO node is ever expanded (no successor enumeration happens — the
run's trace has no expansion event), yet the returned statistics report
`states_expanded = 1`: the expanded count does not equal the number of
nodes actually expanded. -/
theorem c5_counterexample :
    (search goalP ccFULL (fun _ => 0) (fun _ => 0) none none
        (init_search goalP ccFULL demoS0) 5).2.states_expanded = 1 ∧
    expandsOf (searchRun goalP ccFULL (fun _ => 0) (fun _ => 0) none none
        (init_search goalP ccFULL demoS0) 5).2.2 = [] ∧
    (search goalP ccFULL (fun _ => 0) (fun _ => 0) none none
        (init_search goalP ccFULL demoS0) 5).2.states_expanded
      ≠ (expandsOf (searchRun goalP ccFULL (fun _ => 0) (fun _ => 0) none none
          (init_search goalP ccFULL demoS0) 5).2.2).length := by
  decide

/-- C5 (amended): the returned `states_expanded` equals the number of
`SearchNode` objects CREATED during the invocation (`SearchNode.n`): the
initial node plus one per successor inserted into the Frontier — not the
number of nodes expanded; `states_generated` equals `StateSpace.n`: 1
for the initial state (counted as already generated) plus one per
successor state created by successor enumeration. -/
theorem c5_stats_count_creations (P : Problem) (cc : Nat) (sched : Nat → Nat)
    (clock : Nat → Int) (tb : Option Int) (cb : Option (Int × Int × Int))
    (s0 : SState) (fuel : Nat) :
    (search P cc sched clock tb cb (init_search P cc s0) fuel).2.states_expanded
      = 1 + (insertsOf (searchRun P cc sched clock tb cb
          (init_search P cc s0) fuel).2.2).length ∧
    (search P cc sched clock tb cb (init_search P cc s0) fuel).2.states_generated
      = 1 + (generatesOf (searchRun P cc sched clock tb cb
          (init_search P cc s0) fuel).2.2).length := by
  have hs := search_stats P cc sched clock tb cb (init_search P cc s0) fuel
  obtain ⟨h1, h2⟩ := searchRun_counts P cc sched clock tb cb (init_search P cc s0) fuel
    (init_search_inv P cc s0)
  rw [hs]
  exact ⟨h1, h2⟩

/-- C6: when a cost-bound 3-tuple is supplied, a successor that survives
cycle pruning but whose `g` exceeds the first component, or whose `h`
exceeds the second, or whose `g+h` exceeds the third, is processed by
incrementing the cost-pruned counter EXACTLY once and producing only a
cost-prune event: the OPEN collection (Frontier) and the Cycle Ledger
are untouched, so the successor is never inserted. -/
theorem c6_cost_bound_pruning (P : Problem) (cc : Nat) (b : Int × Int × Int)
    (es : ES) (succ : SState)
    (hcc : is_prunable cc es.ledger succ = false)
    (hv : violatesBound b succ.gval (P.heur succ) = true) :
    processSucc P cc (some b) es succ
      = ({ es with nCostPruned := es.nCostPruned + 1 },
         [Ev.costPrune succ.id succ.gval]) := by
  simp [processSucc, hcc, costViolates, hv]

/-- A successor used to witness cost-bound pruning: cost 1 against the
bound `(0, 0, 0)`. -/
def c6S : SState := { id := 3, gval := 1, path := [] }

/-- Witness for C6's theorem: under no cycle checking with bound
`(0,0,0)`, the successor of cost 1 is cost-pruned and not inserted. -/
theorem c6_witness :
    is_prunable ccNONE (init_search goalP ccNONE demoS0).ledger c6S = false ∧
    violatesBound (0, 0, 0) c6S.gval (goalP.heur c6S) = true ∧
    processSucc goalP ccNONE (some (0, 0, 0)) (init_search goalP ccNONE demoS0) c6S
      = ({ init_search goalP ccNONE demoS0 with
            nCostPruned := (init_search goalP ccNONE demoS0).nCostPruned + 1 },
         [Ev.costPrune c6S.id c6S.gval]) :=
  ⟨by decide, by decide,
   c6_cost_bound_pruning goalP ccNONE (0, 0, 0) (init_search goalP ccNONE demoS0) c6S
     (by decide) (by decide)⟩

/-- C7: under the greedy best-first ordering (`lt_type = _H`) a node
precedes (`__lt__` is true) exactly when its `h` is strictly lower, or
the `h` values are equal and its `g` is strictly larger; under the A*
ordering (`lt_type = _SUM_HG`) a node precedes exactly when its `g+h` is
strictly lower, or the `g+h` values are equal and its `g` is strictly
larger. -/
theorem c7_ordering (f : SNode → Int) (a b : SNode) :
    (nodeLt ltH f a b = true ↔
      (a.hval < b.hval ∨ (a.hval = b.hval ∧ b.gval < a.gval))) ∧
    (nodeLt ltSUM_HG f a b = true ↔
      (a.gval + a.hval < b.gval + b.hval ∨
        (a.gval + a.hval = b.gval + b.hval ∧ b.gval < a.gval))) := by
  constructor
  · by_cases h : a.hval = b.hval
    · simp [nodeLt, ltH, ltSUM_HG, ltG, ltC, h]
    · simp [nodeLt, ltH, ltSUM_HG, ltG, ltC, h]
  · by_cases h : a.gval + a.hval = b.gval + b.hval
    · simp [nodeLt, ltH, ltSUM_HG, ltG, ltC, h]
    · simp [nodeLt, ltH, ltSUM_HG, ltG, ltC, h]

/-- C8: selecting the `'default'` cycle-check mode resolves to path mode
exactly when the engine's strategy is depth-first, and to full mode for
every other strategy value. -/
theorem c8_default_cycle_check (strategy : Nat) :
    set_cycle_check strategy "default"
      = Except.ok (if strategy = stDEPTH_FIRST then ccPATH else ccFULL) := by
  by_cases h : strategy = stDEPTH_FIRST
  · simp [set_cycle_check, lookupS, cycleCheckMap, h]
  · simp [set_cycle_check, lookupS, cycleCheckMap, h]

/-- C9: under full cycle checking, in every run started from
`init_search` (which seeds the Cycle Ledger with the initial state's
identity, and in which every node insertion is accompanied by a ledger
record for its identity) the staleness check's bare dictionary lookup
never fails — the run never ends in `keyError` — and on termination
every node remaining on OPEN still has a ledger entry with recorded cost
at most the node's cost. -/
theorem c9_staleness_lookup_safe (P : Problem) (s0 : SState)
    (cb : Option (Int × Int × Int)) (stopTime : Option Int)
    (clock : Nat → Int) (sched : Nat → Nat) (fuel : Nat) :
    (searchOpen P ccFULL cb stopTime clock sched fuel (init_search P ccFULL s0)).1
      ≠ Outcome.keyError ∧
    invES ccFULL (searchOpen P ccFULL cb stopTime clock sched fuel
      (init_search P ccFULL s0)).2.1 := by
  have hm := searchOpen_main P ccFULL cb stopTime clock sched fuel (init_search P ccFULL s0)
    (init_search_inv P ccFULL s0)
  exact ⟨hm.2.2.2.1, hm.1⟩

/-- C10: calling `search` with a time bound of 0 sets no stop time
(Python's `if timebound:` is false for 0), so the whole invocation is
literally identical to calling `search` with no time bound, and such a
run can never end in timeout. -/
theorem c10_zero_timebound (P : Problem) (cc : Nat) (sched : Nat → Nat)
    (clock : Nat → Int) (cb : Option (Int × Int × Int)) (es : ES) (fuel : Nat) :
    search P cc sched clock (some 0) cb es fuel
        = search P cc sched clock none cb es fuel ∧
    (searchRun P cc sched clock (some 0) cb es fuel).1 ≠ Outcome.timeout := by
  constructor
  · rfl
  · have heq : searchRun P cc sched clock (some 0) cb es fuel
        = searchOpen P cc cb none clock sched fuel { es with tick := es.tick + 1 } := rfl
    rw [heq]
    exact searchOpen_no_timeout P cc cb clock sched fuel _
